import Mathlib

/-!
Verification development for the box-loss module `tex/models/structure/losses.py`.

The loss functions (`iou_loss`, `distance_iou_loss`, `complete_iou_loss`,
`tile_iou_loss`, `cls_loss`, `batch_mean`, `structure_loss`) are translated
from the Python source.  The geometric primitive library `tex.core.geometry`
(`iou`, `mbr`, `diag`, `center_distance`, `aspect_ratio`, `sum_si`, `area`)
is not part of the sources; it is modelled from the specification's contract.

Numbers are embedded as rationals.  Division is Lean's total division on `ℚ`
(`q / 0 = 0`); places where the numeric substrate would instead produce
NaN/inf (empty means, `0/0` quotients) are characterised by explicit
side conditions in the theorems rather than by the value of the model.
Square roots, arctangents, `4/π²` and the cross-entropy kernel are
transcendental/substrate operations; they are supplied by an explicit
oracle structure `Substrate`, so every theorem quantifies over the
substrate and states only the properties of those operations it uses.
-/

namespace TexLosses

/-- A bounding box, four coordinates `(x1, y1, x2, y2)` (opposite corners).
The all-zero box is the padding sentinel of the data model. -/
@[ext]
structure Box where
  x1 : ℚ
  y1 : ℚ
  x2 : ℚ
  y2 : ℚ
  deriving DecidableEq, Repr

/-- The all-zero padding sentinel box. -/
def zeroBox : Box := ⟨0, 0, 0, 0⟩

instance : Inhabited Box := ⟨zeroBox⟩

/-- Oracle for the numeric substrate: square root, arctangent, the constant
`4/π²` and the cross-entropy kernel.  These are irrational / external
operations; each theorem assumes only the properties of them it needs. -/
structure Substrate where
  sqrt : ℚ → ℚ
  arctan : ℚ → ℚ
  piSq4 : ℚ
  crossEntropy : List (List ℚ) → List ℕ → ℕ → ℚ → Option (List ℚ) → ℚ

/-- Modelled from the spec: `area(boxes)`, non-negative, zero iff the box is
degenerate (zero width or height).  Width and height are clamped at zero so
the contract's non-negativity holds for arbitrary coordinates. -/
def area (b : Box) : ℚ := max (b.x2 - b.x1) 0 * max (b.y2 - b.y1) 0

/-- Modelled from the spec: intersection area of two boxes (the overlap
rectangle's clamped width times its clamped height). -/
def interArea (a b : Box) : ℚ :=
  max (min a.x2 b.x2 - max a.x1 b.x1) 0 * max (min a.y2 b.y2 - max a.y1 b.y1) 0

/-- Modelled from the spec: `iou(a, b)` = intersection area / union area,
in `[0, 1]`, `0` when the boxes do not overlap or either is degenerate
(the degenerate union gives `0 / 0 = 0` under total division). -/
def iou (a b : Box) : ℚ := interArea a b / (area a + area b - interArea a b)

/-- Modelled from the spec: `mbr(a, b)`, minimum bounding rectangle of two
boxes. -/
def mbr2 (a b : Box) : Box :=
  ⟨min a.x1 b.x1, min a.y1 b.y1, max a.x2 b.x2, max a.y2 b.y2⟩

/-- Modelled from the spec: minimum bounding rectangle of a whole sequence
of boxes (the one-argument `geo.mbr(boxes)` used by `tile_iou_loss`). -/
def mbrList : List Box → Box
  | [] => zeroBox
  | b :: bs => bs.foldl mbr2 b

/-- Modelled from the spec: `diag(box)`, Euclidean length of the diagonal. -/
def diag (P : Substrate) (b : Box) : ℚ :=
  P.sqrt ((b.x2 - b.x1) ^ 2 + (b.y2 - b.y1) ^ 2)

/-- Modelled from the spec: `center_distance(a, b)`, Euclidean distance of
the box centers. -/
def centerDistance (P : Substrate) (a b : Box) : ℚ :=
  P.sqrt (((a.x1 + a.x2) / 2 - (b.x1 + b.x2) / 2) ^ 2
    + ((a.y1 + a.y2) / 2 - (b.y1 + b.y2) / 2) ^ 2)

/-- Modelled from the spec: `aspect_ratio(box)` = width / height. -/
def aspect (b : Box) : ℚ := (b.x2 - b.x1) / (b.y2 - b.y1)

/-- Modelled from the spec: `sum_si(boxes)`, the sum of the pairwise
intersection areas over the (unordered) pairs of distinct positions of the
sequence. -/
def sumSi : List Box → ℚ
  | [] => 0
  | b :: bs => (bs.map fun c => interArea b c).sum + sumSi bs

/-- Arithmetic mean of a list of rationals (`torch.mean`); over the empty
list this is `0 / 0`, which total division maps to `0` (the substrate
produces NaN there — see the claims about the empty-sequence guard). -/
def mean (l : List ℚ) : ℚ := l.sum / l.length

/-- The mask `(target > 0).any(-1)` of the source: a position is kept
exactly when some coordinate of the target row is strictly positive. -/
def keep (b : Box) : Bool :=
  decide (0 < b.x1) || decide (0 < b.y1) || decide (0 < b.x2) || decide (0 < b.y2)

/-- The aligned (prediction, target) pairs a loss call works on: all the
zipped positions when `ignoreZero` is false, otherwise only the positions
whose target row passes `keep` (translating the boolean-mask indexing
`output[(target > 0).any(-1)]`, `target[(target > 0).any(-1)]`). -/
def selPairs (output target : List Box) (ignoreZero : Bool) : List (Box × Box) :=
  if ignoreZero then (output.zip target).filter fun p => keep p.2
  else output.zip target

/-- Per-position IoU loss term `1 - iou(target_i, output_i)`. -/
def iouTerm (t o : Box) : ℚ := 1 - iou t o

/-- Per-position DIoU center-distance term
`center_distance / diag(mbr(target_i, output_i))`. -/
def distTerm (P : Substrate) (t o : Box) : ℚ :=
  centerDistance P t o / diag P (mbr2 t o)

/-- Per-position DIoU loss term. -/
def diouTerm (P : Substrate) (t o : Box) : ℚ := 1 - iou t o + distTerm P t o

/-- The CIoU aspect-ratio penalty
`value = (arctan(aspect(target)) - arctan(aspect(output)))^2 * (4/π²)`. -/
def ciouV (P : Substrate) (t o : Box) : ℚ :=
  (P.arctan (aspect t) - P.arctan (aspect o)) ^ 2 * P.piSq4

/-- The CIoU trade-off weight `alpha = value / ((1 - iou) + value)`; the
source leaves its `0/0` case (perfect overlap with identical aspect ratio)
unmasked. -/
def ciouAlpha (P : Substrate) (t o : Box) : ℚ :=
  ciouV P t o / ((1 - iou t o) + ciouV P t o)

/-- Per-position CIoU loss term
`1 - iou + dist_center / mbr_diag + alpha * value` (shared by
`complete_iou_loss` and `tile_iou_loss`). -/
def ciouTerm (P : Substrate) (t o : Box) : ℚ :=
  1 - iou t o + distTerm P t o + ciouAlpha P t o * ciouV P t o

/-- `iou_loss(output, target, ignore_zero)` of the source. -/
def iou_loss (P : Substrate) (output target : List Box) (ignoreZero : Bool) : ℚ :=
  mean ((selPairs output target ignoreZero).map fun p => iouTerm p.2 p.1)

/-- `distance_iou_loss(output, target, ignore_zero)` of the source. -/
def distance_iou_loss (P : Substrate) (output target : List Box) (ignoreZero : Bool) : ℚ :=
  mean ((selPairs output target ignoreZero).map fun p => diouTerm P p.2 p.1)

/-- `complete_iou_loss(output, target, ignore_zero)` of the source. -/
def complete_iou_loss (P : Substrate) (output target : List Box) (ignoreZero : Bool) : ℚ :=
  mean ((selPairs output target ignoreZero).map fun p => ciouTerm P p.2 p.1)

/-- The per-sequence tiling score of `tile_iou_loss`:
`sum_si(S)/area(mbr(S)) + |1 - sum(area(box) for box in S)/area(mbr(S))|`
(in the source: `p_tile = p_ssi / geo.area(p_mbr) + p_dist` with
`p_dist = abs(1 - sum(area(output)) / area(p_mbr))`). -/
def tileScore (l : List Box) : ℚ :=
  sumSi l / area (mbrList l) + |1 - (l.map area).sum / area (mbrList l)|

/-- `tile_iou_loss(output, target, ignore_zero)` of the source: the mean of
the per-position CIoU terms plus the sequence-level term
`1 - iou(mbr(output), mbr(target)) + |p_tile - t_tile|`, computed on the
filtered sequences. -/
def tile_iou_loss (P : Substrate) (output target : List Box) (ignoreZero : Bool) : ℚ :=
  let ps := selPairs output target ignoreZero
  let outF := ps.map Prod.fst
  let tgtF := ps.map Prod.snd
  let seqIou := iou (mbrList outF) (mbrList tgtF)
  mean (ps.map fun p => ciouTerm P p.2 p.1)
    + (1 - seqIou + |tileScore outF - tileScore tgtF|)

/-- `cls_loss(output, target, pad_idx, smoothing, weight)` of the source:
a direct call into the substrate's label-smoothed cross-entropy kernel. -/
def cls_loss (P : Substrate) (output : List (List ℚ)) (target : List ℕ)
    (padIdx : ℕ) (smoothing : ℚ) (weight : Option (List ℚ)) : ℚ :=
  P.crossEntropy output target padIdx smoothing weight

/-- `batch_mean(loss_func, outputs, targets, **kwargs)` of the source: the
per-sample loop, applying the loss to each (output, target) sample pair and
averaging the per-sample scalars. -/
def batch_mean {α β : Type} (lossFunc : α → β → ℚ)
    (outputs : List α) (targets : List β) : ℚ :=
  mean ((outputs.zip targets).map fun p => lossFunc p.1 p.2)

/-- `structure_loss(outputs, targets, ignore_zero, pad_idx, smoothing,
weight)` of the source: the pair (classification loss, box loss). -/
def structure_loss (P : Substrate)
    (outputs : List (List (List ℚ)) × List (List Box))
    (targets : List (List ℕ) × List (List Box))
    (ignoreZero : Bool) (padIdx : ℕ) (smoothing : ℚ) (weight : Option (List ℚ)) :
    ℚ × ℚ :=
  (batch_mean (fun o t => cls_loss P o t padIdx smoothing weight) outputs.1 targets.1,
   batch_mean (fun o t => tile_iou_loss P o t ignoreZero) outputs.2 targets.2)

/-- A concrete substrate used to instantiate witnesses (the identity in
place of the transcendental maps, a positive rational in place of `4/π²`,
a constant cross-entropy kernel). -/
def testP : Substrate :=
  ⟨id, id, 2 / 5, fun _ _ _ _ _ => 0⟩

/-! Basic bounds on the geometric primitives. -/

theorem area_nonneg (b : Box) : 0 ≤ area b :=
  mul_nonneg (le_max_right _ 0) (le_max_right _ 0)

theorem interArea_nonneg (a b : Box) : 0 ≤ interArea a b :=
  mul_nonneg (le_max_right _ 0) (le_max_right _ 0)

theorem interArea_le_area_left (a b : Box) : interArea a b ≤ area a := by
  unfold interArea area
  apply mul_le_mul
  · exact max_le_max (sub_le_sub (min_le_left _ _) (le_max_left _ _)) le_rfl
  · exact max_le_max (sub_le_sub (min_le_left _ _) (le_max_left _ _)) le_rfl
  · exact le_max_right _ 0
  · exact le_max_right _ 0

theorem interArea_le_area_right (a b : Box) : interArea a b ≤ area b := by
  unfold interArea area
  apply mul_le_mul
  · exact max_le_max (sub_le_sub (min_le_right _ _) (le_max_right _ _)) le_rfl
  · exact max_le_max (sub_le_sub (min_le_right _ _) (le_max_right _ _)) le_rfl
  · exact le_max_right _ 0
  · exact le_max_right _ 0

theorem interArea_le_union (a b : Box) :
    interArea a b ≤ area a + area b - interArea a b := by
  have h1 := interArea_le_area_left a b
  have h2 := interArea_le_area_right a b
  linarith

theorem union_nonneg (a b : Box) : 0 ≤ area a + area b - interArea a b :=
  le_trans (interArea_nonneg a b) (interArea_le_union a b)

theorem iou_nonneg (a b : Box) : 0 ≤ iou a b :=
  div_nonneg (interArea_nonneg a b) (union_nonneg a b)

theorem iou_le_one (a b : Box) : iou a b ≤ 1 := by
  unfold iou
  rcases eq_or_lt_of_le (union_nonneg a b) with h | h
  · rw [← h, div_zero]
    exact zero_le_one
  · exact (div_le_one h).mpr (interArea_le_union a b)

theorem iouTerm_nonneg (t o : Box) : 0 ≤ iouTerm t o := by
  have := iou_le_one t o
  unfold iouTerm
  linarith

theorem mean_nonneg {l : List ℚ} (h : ∀ x ∈ l, 0 ≤ x) : 0 ≤ mean l :=
  div_nonneg (List.sum_nonneg h) (Nat.cast_nonneg _)

/-- Claim C1: after padding filtering, `tile_iou_loss` is the mean of the
per-position `complete_iou_loss` terms (that is, `complete_iou_loss` on the
same pair), plus `1 - iou` of the two whole-sequence minimum bounding
rectangles, plus the absolute difference of the two sequences' tile scores
`sum_si(S)/area(mbr(S)) + |1 - sum(area)/area(mbr(S))|`; the last two
terms enter once per sample, not once per position. -/
theorem tile_iou_loss_decomposition (P : Substrate)
    (output target : List Box) (ignoreZero : Bool) :
    tile_iou_loss P output target ignoreZero =
      complete_iou_loss P output target ignoreZero
        + (1 - iou (mbrList ((selPairs output target ignoreZero).map Prod.fst))
                   (mbrList ((selPairs output target ignoreZero).map Prod.snd)))
        + |tileScore ((selPairs output target ignoreZero).map Prod.fst)
            - tileScore ((selPairs output target ignoreZero).map Prod.snd)| := by
  unfold tile_iou_loss complete_iou_loss
  ring

/-- Claim C3: `structure_loss` returns the pair (classification loss, box
loss) — not their sum — where the first component is the unweighted
arithmetic mean over the batch of per-sample `cls_loss` values (same
`pad_idx`/`smoothing`/`weight` arguments at every sample) and the second is
the unweighted arithmetic mean over the batch of per-sample `tile_iou_loss`
values (same `ignore_zero` argument at every sample). -/
theorem structure_loss_is_pair_of_batch_means (P : Substrate)
    (clsOut : List (List (List ℚ))) (boxOut : List (List Box))
    (clsTgt : List (List ℕ)) (boxTgt : List (List Box))
    (ignoreZero : Bool) (padIdx : ℕ) (smoothing : ℚ) (weight : Option (List ℚ)) :
    structure_loss P (clsOut, boxOut) (clsTgt, boxTgt) ignoreZero padIdx smoothing weight =
      (mean ((clsOut.zip clsTgt).map fun p => cls_loss P p.1 p.2 padIdx smoothing weight),
       mean ((boxOut.zip boxTgt).map fun p => tile_iou_loss P p.1 p.2 ignoreZero)) := rfl

/-! Padding filtering. -/

theorem zip_map_fst_snd_self (l : List (Box × Box)) :
    (l.map Prod.fst).zip (l.map Prod.snd) = l := by
  have h := List.zip_unzip l
  rwa [List.unzip_eq_map] at h

/-- Claim C2, counterexample: with `ignore_zero=True` the filter discards a
target row `(-1, -1, -1, -1)` that is not the all-zero sentinel (the row
merely has no strictly positive coordinate).  No target row of this input
is the sentinel, so under the claim the filtered result would have to
coincide with the unfiltered one; the two results differ (`0` vs `1/2`). -/
theorem ignore_zero_discards_nonzero_row :
    keep ⟨-1, -1, -1, -1⟩ = false ∧ (⟨-1, -1, -1, -1⟩ : Box) ≠ zeroBox ∧
    iou_loss testP [⟨1, 1, 3, 3⟩, ⟨1, 1, 2, 2⟩] [⟨1, 1, 3, 3⟩, ⟨-1, -1, -1, -1⟩] true = 0 ∧
    iou_loss testP [⟨1, 1, 3, 3⟩, ⟨1, 1, 2, 2⟩] [⟨1, 1, 3, 3⟩, ⟨-1, -1, -1, -1⟩] false = 1 / 2 := by
  refine ⟨rfl, by decide, ?_, ?_⟩ <;>
    norm_num [iou_loss, selPairs, keep, mean, iouTerm, iou, interArea, area, testP]

/-- Claim C2, amended: position `i` is discarded from both sequences exactly
when no coordinate of `target[i]` is strictly positive (for the data model's
nonnegative boxes this is exactly the all-zero sentinel), the prediction
never being consulted; so each of the four losses with `ignore_zero=True`
equals the same loss with `ignore_zero=False` on the subsequence obtained by
removing the positions whose target row has no positive coordinate, and
with `ignore_zero=False` all positions are included. -/
theorem ignore_zero_equals_loss_on_filtered_subsequence (P : Substrate)
    (output target : List Box) :
    iou_loss P output target true
      = iou_loss P (((output.zip target).filter fun p => keep p.2).map Prod.fst)
          (((output.zip target).filter fun p => keep p.2).map Prod.snd) false ∧
    distance_iou_loss P output target true
      = distance_iou_loss P (((output.zip target).filter fun p => keep p.2).map Prod.fst)
          (((output.zip target).filter fun p => keep p.2).map Prod.snd) false ∧
    complete_iou_loss P output target true
      = complete_iou_loss P (((output.zip target).filter fun p => keep p.2).map Prod.fst)
          (((output.zip target).filter fun p => keep p.2).map Prod.snd) false ∧
    tile_iou_loss P output target true
      = tile_iou_loss P (((output.zip target).filter fun p => keep p.2).map Prod.fst)
          (((output.zip target).filter fun p => keep p.2).map Prod.snd) false := by
  have hsel : ∀ o t : List Box, selPairs o t false = o.zip t := fun _ _ => rfl
  have hkey : selPairs (((output.zip target).filter fun p => keep p.2).map Prod.fst)
      (((output.zip target).filter fun p => keep p.2).map Prod.snd) false
      = selPairs output target true := by
    rw [hsel, zip_map_fst_snd_self]
    rfl
  refine ⟨?_, ?_, ?_, ?_⟩ <;>
    simp only [iou_loss, distance_iou_loss, complete_iou_loss, tile_iou_loss, hkey]

/-- For the exclusion lemmas: the zipped, filtered position list ignores a
position whose target row fails `keep`, wherever it sits. -/
theorem selPairs_middle_not_keep (o1 o2 t1 t2 : List Box) (o b : Box)
    (hlen : o1.length = t1.length) (hb : keep b = false) :
    selPairs (o1 ++ o :: o2) (t1 ++ b :: t2) true
      = selPairs (o1 ++ o2) (t1 ++ t2) true := by
  unfold selPairs
  rw [if_pos rfl, if_pos rfl, List.zip_append hlen, List.zip_append hlen,
    List.filter_append, List.filter_append, List.zip_cons_cons, List.filter_cons]
  simp [hb]

/-- Claim C10: with `ignore_zero=True`, a position is kept exactly when some
coordinate of the target row is strictly greater than zero; consequently a
target row all of whose coordinates are `≤ 0` is excluded from each of the
four losses exactly as if it were the all-zero padding sentinel. -/
theorem nonpositive_target_row_acts_as_sentinel (P : Substrate) (b : Box)
    (hb : b.x1 ≤ 0 ∧ b.y1 ≤ 0 ∧ b.x2 ≤ 0 ∧ b.y2 ≤ 0)
    (o1 o2 t1 t2 : List Box) (o : Box) (hlen : o1.length = t1.length) :
    (∀ c : Box, keep c = true ↔ (0 < c.x1 ∨ 0 < c.y1 ∨ 0 < c.x2 ∨ 0 < c.y2)) ∧
    iou_loss P (o1 ++ o :: o2) (t1 ++ b :: t2) true
      = iou_loss P (o1 ++ o :: o2) (t1 ++ zeroBox :: t2) true ∧
    distance_iou_loss P (o1 ++ o :: o2) (t1 ++ b :: t2) true
      = distance_iou_loss P (o1 ++ o :: o2) (t1 ++ zeroBox :: t2) true ∧
    complete_iou_loss P (o1 ++ o :: o2) (t1 ++ b :: t2) true
      = complete_iou_loss P (o1 ++ o :: o2) (t1 ++ zeroBox :: t2) true ∧
    tile_iou_loss P (o1 ++ o :: o2) (t1 ++ b :: t2) true
      = tile_iou_loss P (o1 ++ o :: o2) (t1 ++ zeroBox :: t2) true := by
  obtain ⟨h1, h2, h3, h4⟩ := hb
  have hkb : keep b = false := by
    simp only [keep, Bool.or_eq_false_iff, decide_eq_false_iff_not, not_lt]
    exact ⟨⟨⟨h1, h2⟩, h3⟩, h4⟩
  have hkz : keep zeroBox = false := rfl
  have hkey : selPairs (o1 ++ o :: o2) (t1 ++ b :: t2) true
      = selPairs (o1 ++ o :: o2) (t1 ++ zeroBox :: t2) true := by
    rw [selPairs_middle_not_keep o1 o2 t1 t2 o b hlen hkb,
      selPairs_middle_not_keep o1 o2 t1 t2 o zeroBox hlen hkz]
  refine ⟨?_, ?_, ?_, ?_, ?_⟩
  · intro c
    simp [keep, or_assoc]
  all_goals
    simp only [iou_loss, distance_iou_loss, complete_iou_loss, tile_iou_loss, hkey]

/-- Claim C10, witness: a target row `(-1, 0, -2, 0)` (not the sentinel,
but with no positive coordinate) is treated exactly like the sentinel. -/
theorem nonpositive_target_row_acts_as_sentinel_witness :
    (∀ c : Box, keep c = true ↔ (0 < c.x1 ∨ 0 < c.y1 ∨ 0 < c.x2 ∨ 0 < c.y2)) ∧
    iou_loss testP [⟨1, 1, 2, 2⟩] [⟨-1, 0, -2, 0⟩] true
      = iou_loss testP [⟨1, 1, 2, 2⟩] [zeroBox] true ∧
    distance_iou_loss testP [⟨1, 1, 2, 2⟩] [⟨-1, 0, -2, 0⟩] true
      = distance_iou_loss testP [⟨1, 1, 2, 2⟩] [zeroBox] true ∧
    complete_iou_loss testP [⟨1, 1, 2, 2⟩] [⟨-1, 0, -2, 0⟩] true
      = complete_iou_loss testP [⟨1, 1, 2, 2⟩] [zeroBox] true ∧
    tile_iou_loss testP [⟨1, 1, 2, 2⟩] [⟨-1, 0, -2, 0⟩] true
      = tile_iou_loss testP [⟨1, 1, 2, 2⟩] [zeroBox] true :=
  nonpositive_target_row_acts_as_sentinel testP ⟨-1, 0, -2, 0⟩
    (by refine ⟨?_, ?_, ?_, ?_⟩ <;> norm_num)
    [] [] [] [] ⟨1, 1, 2, 2⟩ rfl

/-- Claim C4: on a sequence whose target rows are all padding, the filter
leaves nothing, and the losses reduce to the (unguarded) mean of an empty
list of terms — there is no emptiness branch in the source, so the numeric
substrate takes the mean of an empty tensor there (NaN). -/
theorem fully_padded_sequence_reaches_empty_mean :
    selPairs [⟨1, 1, 2, 2⟩] [zeroBox] true = [] ∧
    iou_loss testP [⟨1, 1, 2, 2⟩] [zeroBox] true = mean [] ∧
    tile_iou_loss testP [⟨1, 1, 2, 2⟩] [zeroBox] true
      = mean [] + (1 - iou (mbrList []) (mbrList [])
          + |tileScore [] - tileScore []|) := ⟨rfl, rfl, rfl⟩

/-! The alpha trade-off weight of the CIoU term. -/

/-- Claim C6: in the per-position CIoU term shared by `complete_iou_loss`
and `tile_iou_loss`, the weight `alpha = v / ((1 - iou) + v)` has a
vanishing denominator exactly when `1 - iou` and `v` are both exactly zero
(perfect overlap with identical aspect ratio, the `0/0` NaN of the
substrate), and the quotient is left in the loss term unmasked. -/
theorem alpha_undefined_iff_perfect_match (P : Substrate) (hc : 0 ≤ P.piSq4)
    (t o : Box) :
    ((1 - iou t o) + ciouV P t o = 0 ↔ (1 - iou t o = 0 ∧ ciouV P t o = 0)) ∧
    ciouTerm P t o = 1 - iou t o + distTerm P t o
      + (ciouV P t o / ((1 - iou t o) + ciouV P t o)) * ciouV P t o := by
  have h1 : 0 ≤ 1 - iou t o := by have := iou_le_one t o; linarith
  have h2 : 0 ≤ ciouV P t o := mul_nonneg (sq_nonneg _) hc
  refine ⟨⟨fun h => ⟨by linarith, by linarith⟩, fun h => by rw [h.1, h.2]; ring⟩, rfl⟩

/-- Claim C6, witness: at a pair of identical unit boxes both `1 - iou`
and `v` vanish, so the denominator of `alpha` is zero there. -/
theorem alpha_undefined_iff_perfect_match_witness :
    ((1 - iou ⟨0, 0, 1, 1⟩ ⟨0, 0, 1, 1⟩) + ciouV testP ⟨0, 0, 1, 1⟩ ⟨0, 0, 1, 1⟩ = 0 ↔
      (1 - iou ⟨0, 0, 1, 1⟩ ⟨0, 0, 1, 1⟩ = 0 ∧ ciouV testP ⟨0, 0, 1, 1⟩ ⟨0, 0, 1, 1⟩ = 0)) ∧
    ciouTerm testP ⟨0, 0, 1, 1⟩ ⟨0, 0, 1, 1⟩
      = 1 - iou ⟨0, 0, 1, 1⟩ ⟨0, 0, 1, 1⟩ + distTerm testP ⟨0, 0, 1, 1⟩ ⟨0, 0, 1, 1⟩
        + (ciouV testP ⟨0, 0, 1, 1⟩ ⟨0, 0, 1, 1⟩
            / ((1 - iou ⟨0, 0, 1, 1⟩ ⟨0, 0, 1, 1⟩) + ciouV testP ⟨0, 0, 1, 1⟩ ⟨0, 0, 1, 1⟩))
          * ciouV testP ⟨0, 0, 1, 1⟩ ⟨0, 0, 1, 1⟩ :=
  alpha_undefined_iff_perfect_match testP (by norm_num [testP]) ⟨0, 0, 1, 1⟩ ⟨0, 0, 1, 1⟩

/-! Identical prediction and target sequences. -/

/-- Claim C9, counterexample: the box `(-3, -3, -1, -1)` is non-degenerate
(width and height `2`), yet it has no strictly positive coordinate, so
under the default `ignore_zero=True` every position of the identical
prediction/target pair is discarded and both losses reduce to the mean of
an empty list of terms — `torch.mean` of an empty tensor in the program,
i.e. NaN, not the `0` the claim asserts; the `iou(a, a) = 1` computation
the claim appeals to is never performed at all. -/
theorem identical_nonpositive_box_collapses_to_empty_mean :
    (⟨-3, -3, -1, -1⟩ : Box).x1 < (⟨-3, -3, -1, -1⟩ : Box).x2 ∧
    (⟨-3, -3, -1, -1⟩ : Box).y1 < (⟨-3, -3, -1, -1⟩ : Box).y2 ∧
    keep ⟨-3, -3, -1, -1⟩ = false ∧
    selPairs (List.replicate 1 ⟨-3, -3, -1, -1⟩)
      (List.replicate 1 ⟨-3, -3, -1, -1⟩) true = [] ∧
    iou_loss testP (List.replicate 1 ⟨-3, -3, -1, -1⟩)
      (List.replicate 1 ⟨-3, -3, -1, -1⟩) true = mean [] ∧
    distance_iou_loss testP (List.replicate 1 ⟨-3, -3, -1, -1⟩)
      (List.replicate 1 ⟨-3, -3, -1, -1⟩) true = mean [] :=
  ⟨by norm_num, by norm_num, rfl, rfl, rfl, rfl⟩

/-- Claim C9, amended: for any non-degenerate box `a` that has some
strictly positive coordinate (exactly the condition for surviving the
padding filter), both `iou_loss` and `distance_iou_loss` on a nonempty
sequence pairing `a` with itself at every position are exactly `0`:
`iou(a, a) = 1` kills the `1 - iou` term and the coincident centers give a
zero center distance.  A non-degenerate box with no positive coordinate is
instead filtered away entirely and the losses collapse to the undefined
empty mean (NaN in the substrate). -/
theorem identical_sequences_zero_loss (P : Substrate) (h0 : P.sqrt 0 = 0)
    (a : Box) (hkp : 0 < a.x1 ∨ 0 < a.y1 ∨ 0 < a.x2 ∨ 0 < a.y2)
    (hw : a.x1 < a.x2) (hh : a.y1 < a.y2)
    (n : ℕ) (_hn : 0 < n) :
    iou_loss P (List.replicate n a) (List.replicate n a) true = 0 ∧
    distance_iou_loss P (List.replicate n a) (List.replicate n a) true = 0 := by
  have hk : keep a = true := by
    simp only [keep, Bool.or_eq_true, decide_eq_true_eq]
    tauto
  have hsel : selPairs (List.replicate n a) (List.replicate n a) true
      = List.replicate n (a, a) := by
    unfold selPairs
    rw [if_pos rfl, List.zip_replicate']
    exact List.filter_eq_self.mpr fun x hx => by
      rw [List.eq_of_mem_replicate hx]
      exact hk
  have hA : 0 < area a := by
    unfold area
    rw [max_eq_left (le_of_lt (sub_pos.mpr hw)), max_eq_left (le_of_lt (sub_pos.mpr hh))]
    exact mul_pos (sub_pos.mpr hw) (sub_pos.mpr hh)
  have hI : interArea a a = area a := by
    unfold interArea area
    rw [min_self, max_self, min_self, max_self]
  have hiou : iou a a = 1 := by
    unfold iou
    rw [hI, add_sub_cancel_right]
    exact div_self (ne_of_gt hA)
  have hcd : centerDistance P a a = 0 := by
    unfold centerDistance
    rw [show ((a.x1 + a.x2) / 2 - (a.x1 + a.x2) / 2) ^ 2
        + ((a.y1 + a.y2) / 2 - (a.y1 + a.y2) / 2) ^ 2 = (0 : ℚ) by ring]
    exact h0
  have hdt : distTerm P a a = 0 := by
    unfold distTerm
    rw [hcd, zero_div]
  have hterm : iouTerm a a = 0 := by
    unfold iouTerm
    rw [hiou, sub_self]
  have hterm2 : diouTerm P a a = 0 := by
    unfold diouTerm
    rw [hiou, hdt, sub_self, add_zero]
  constructor
  · unfold iou_loss
    rw [hsel, List.map_replicate, hterm]
    simp [mean, List.sum_replicate]
  · unfold distance_iou_loss
    rw [hsel, List.map_replicate, hterm2]
    simp [mean, List.sum_replicate]

/-- Claim C9, witness: the box `(-1, 0, 2, 1)` (a negative coordinate, but
a positive one too, so it survives the filter) paired with itself. -/
theorem identical_sequences_zero_loss_witness :
    iou_loss testP (List.replicate 1 ⟨-1, 0, 2, 1⟩) (List.replicate 1 ⟨-1, 0, 2, 1⟩) true = 0 ∧
    distance_iou_loss testP (List.replicate 1 ⟨-1, 0, 2, 1⟩)
      (List.replicate 1 ⟨-1, 0, 2, 1⟩) true = 0 :=
  identical_sequences_zero_loss testP rfl ⟨-1, 0, 2, 1⟩
    (Or.inr (Or.inr (Or.inl (by norm_num)))) (by norm_num) (by norm_num) 1 one_pos

/-! Nonnegativity of the per-position terms and of the losses. -/

theorem distTerm_nonneg (P : Substrate) (hs : ∀ x, 0 ≤ x → 0 ≤ P.sqrt x)
    (t o : Box) : 0 ≤ distTerm P t o :=
  div_nonneg (hs _ (by positivity)) (hs _ (by positivity))

theorem ciouV_nonneg (P : Substrate) (hc : 0 ≤ P.piSq4) (t o : Box) :
    0 ≤ ciouV P t o := mul_nonneg (sq_nonneg _) hc

theorem one_sub_iou_nonneg (t o : Box) : 0 ≤ 1 - iou t o := by
  have := iou_le_one t o
  linarith

theorem alphaV_nonneg (P : Substrate) (hc : 0 ≤ P.piSq4) (t o : Box) :
    0 ≤ ciouAlpha P t o * ciouV P t o :=
  mul_nonneg
    (div_nonneg (ciouV_nonneg P hc t o)
      (add_nonneg (one_sub_iou_nonneg t o) (ciouV_nonneg P hc t o)))
    (ciouV_nonneg P hc t o)

theorem iouTerm_le_diouTerm (P : Substrate) (hs : ∀ x, 0 ≤ x → 0 ≤ P.sqrt x)
    (t o : Box) : iouTerm t o ≤ diouTerm P t o := by
  have := distTerm_nonneg P hs t o
  unfold iouTerm diouTerm
  linarith

theorem diouTerm_le_ciouTerm (P : Substrate) (hc : 0 ≤ P.piSq4)
    (t o : Box) : diouTerm P t o ≤ ciouTerm P t o := by
  have := alphaV_nonneg P hc t o
  unfold diouTerm ciouTerm
  linarith

theorem iouTerm_le_ciouTerm (P : Substrate) (hs : ∀ x, 0 ≤ x → 0 ≤ P.sqrt x)
    (hc : 0 ≤ P.piSq4) (t o : Box) : iouTerm t o ≤ ciouTerm P t o :=
  le_trans (iouTerm_le_diouTerm P hs t o) (diouTerm_le_ciouTerm P hc t o)

theorem diouTerm_nonneg (P : Substrate) (hs : ∀ x, 0 ≤ x → 0 ≤ P.sqrt x)
    (t o : Box) : 0 ≤ diouTerm P t o :=
  le_trans (iouTerm_nonneg t o) (iouTerm_le_diouTerm P hs t o)

theorem ciouTerm_nonneg (P : Substrate) (hs : ∀ x, 0 ≤ x → 0 ≤ P.sqrt x)
    (hc : 0 ≤ P.piSq4) (t o : Box) : 0 ≤ ciouTerm P t o :=
  le_trans (iouTerm_nonneg t o) (iouTerm_le_ciouTerm P hs hc t o)

theorem distance_iou_loss_nonneg (P : Substrate) (hs : ∀ x, 0 ≤ x → 0 ≤ P.sqrt x)
    (output target : List Box) (iz : Bool) :
    0 ≤ distance_iou_loss P output target iz := by
  apply mean_nonneg
  intro x hx
  rw [List.mem_map] at hx
  obtain ⟨p, _, rfl⟩ := hx
  exact diouTerm_nonneg P hs p.2 p.1

theorem complete_iou_loss_nonneg (P : Substrate) (hs : ∀ x, 0 ≤ x → 0 ≤ P.sqrt x)
    (hc : 0 ≤ P.piSq4) (output target : List Box) (iz : Bool) :
    0 ≤ complete_iou_loss P output target iz := by
  apply mean_nonneg
  intro x hx
  rw [List.mem_map] at hx
  obtain ⟨p, _, rfl⟩ := hx
  exact ciouTerm_nonneg P hs hc p.2 p.1

theorem tile_iou_loss_nonneg (P : Substrate) (hs : ∀ x, 0 ≤ x → 0 ≤ P.sqrt x)
    (hc : 0 ≤ P.piSq4) (output target : List Box) (iz : Bool) :
    0 ≤ tile_iou_loss P output target iz := by
  simp only [tile_iou_loss]
  have h1 : 0 ≤ mean ((selPairs output target iz).map fun p => ciouTerm P p.2 p.1) := by
    apply mean_nonneg
    intro x hx
    rw [List.mem_map] at hx
    obtain ⟨p, _, rfl⟩ := hx
    exact ciouTerm_nonneg P hs hc p.2 p.1
  have h2 := one_sub_iou_nonneg (mbrList ((selPairs output target iz).map Prod.fst))
    (mbrList ((selPairs output target iz).map Prod.snd))
  have h3 := abs_nonneg (tileScore ((selPairs output target iz).map Prod.fst)
    - tileScore ((selPairs output target iz).map Prod.snd))
  unfold iouTerm at h2
  linarith

/-! The concrete scenario of the spec's testable properties. -/

/-- The prediction sequence of the scenario: three copies of
`[0.1, 0.1, 0.1, 0.1]` (a degenerate box). -/
def predSeq3 : List Box := List.replicate 3 ⟨1/10, 1/10, 1/10, 1/10⟩

/-- The target sequence of the scenario: three copies of
`[0.1, 0.1, 0.125, 0.2]`. -/
def tgtSeq3 : List Box := List.replicate 3 ⟨1/10, 1/10, 1/8, 1/5⟩

/-- Claim C8: on the scenario (three identical degenerate predictions
against three identical proper targets, no padding rows), every one of the
four losses is a non-negative rational (`iou_loss` is exactly `1`), and at
every surviving position the per-position `complete_iou_loss` term
dominates the per-position `iou_loss` term. -/
theorem scenario_losses_nonneg_and_ciou_dominates (P : Substrate)
    (hs : ∀ x, 0 ≤ x → 0 ≤ P.sqrt x) (hc : 0 ≤ P.piSq4) :
    (0 ≤ iou_loss P predSeq3 tgtSeq3 true ∧ iou_loss P predSeq3 tgtSeq3 true = 1) ∧
    0 ≤ distance_iou_loss P predSeq3 tgtSeq3 true ∧
    0 ≤ complete_iou_loss P predSeq3 tgtSeq3 true ∧
    0 ≤ tile_iou_loss P predSeq3 tgtSeq3 true ∧
    ∀ p ∈ selPairs predSeq3 tgtSeq3 true, iouTerm p.2 p.1 ≤ ciouTerm P p.2 p.1 := by
  have h1 : iou_loss P predSeq3 tgtSeq3 true = 1 := by
    norm_num [iou_loss, selPairs, keep, mean, iouTerm, iou, interArea, area,
      predSeq3, tgtSeq3, List.replicate]
  refine ⟨⟨by rw [h1]; norm_num, h1⟩,
    distance_iou_loss_nonneg P hs predSeq3 tgtSeq3 true,
    complete_iou_loss_nonneg P hs hc predSeq3 tgtSeq3 true,
    tile_iou_loss_nonneg P hs hc predSeq3 tgtSeq3 true,
    fun p _ => iouTerm_le_ciouTerm P hs hc p.2 p.1⟩

/-- Claim C8, witness: the scenario under the concrete test substrate. -/
theorem scenario_losses_nonneg_and_ciou_dominates_witness :
    (0 ≤ iou_loss testP predSeq3 tgtSeq3 true ∧ iou_loss testP predSeq3 tgtSeq3 true = 1) ∧
    0 ≤ distance_iou_loss testP predSeq3 tgtSeq3 true ∧
    0 ≤ complete_iou_loss testP predSeq3 tgtSeq3 true ∧
    0 ≤ tile_iou_loss testP predSeq3 tgtSeq3 true ∧
    ∀ p ∈ selPairs predSeq3 tgtSeq3 true, iouTerm p.2 p.1 ≤ ciouTerm testP p.2 p.1 :=
  scenario_losses_nonneg_and_ciou_dominates testP (fun _ h => h) (by norm_num [testP])

/-! Permutation invariance of the sequence-level aggregates. -/

theorem interArea_comm (a b : Box) : interArea a b = interArea b a := by
  unfold interArea
  rw [min_comm a.x2, max_comm a.x1, min_comm a.y2, max_comm a.y1]

theorem mbr2_comm (a b : Box) : mbr2 a b = mbr2 b a :=
  Box.ext (min_comm _ _) (min_comm _ _) (max_comm _ _) (max_comm _ _)

theorem mbr2_assoc (a b c : Box) : mbr2 (mbr2 a b) c = mbr2 a (mbr2 b c) :=
  Box.ext (min_assoc _ _ _) (min_assoc _ _ _) (max_assoc _ _ _) (max_assoc _ _ _)

theorem mbr2_self (a : Box) : mbr2 a a = a :=
  Box.ext (min_self _) (min_self _) (max_self _) (max_self _)

theorem mbr2_right_comm (b a1 a2 : Box) :
    mbr2 (mbr2 b a1) a2 = mbr2 (mbr2 b a2) a1 :=
  Box.ext (min_right_comm _ _ _) (min_right_comm _ _ _)
    (Max.right_comm _ _ _) (Max.right_comm _ _ _)

instance : RightCommutative mbr2 := ⟨mbr2_right_comm⟩

theorem foldl_mbr2_absorb (l : List Box) :
    ∀ b y : Box, y ∈ l → l.foldl mbr2 (mbr2 b y) = l.foldl mbr2 b := by
  induction l with
  | nil =>
    intro b y h
    cases h
  | cons z zs ih =>
    intro b y h
    rcases List.mem_cons.mp h with rfl | hm
    · simp only [List.foldl_cons]
      rw [mbr2_assoc, mbr2_self]
    · simp only [List.foldl_cons]
      rw [mbr2_right_comm b y z]
      exact ih (mbr2 b z) y hm

theorem mbrList_perm {l l' : List Box} (h : l.Perm l') : mbrList l = mbrList l' := by
  cases l with
  | nil =>
    rw [← h.nil_eq]
  | cons x xs =>
    cases l' with
    | nil => exact absurd h.symm.nil_eq (fun he => List.cons_ne_nil x xs he.symm)
    | cons y ys =>
      have hx : x ∈ y :: ys := h.mem_iff.mp (List.mem_cons_self x xs)
      show xs.foldl mbr2 x = ys.foldl mbr2 y
      have e1 : xs.foldl mbr2 x = (x :: xs).foldl mbr2 x := by
        simp only [List.foldl_cons, mbr2_self]
      have e2 : (x :: xs).foldl mbr2 x = (y :: ys).foldl mbr2 x := h.foldl_eq x
      have e3 : (y :: ys).foldl mbr2 x = ys.foldl mbr2 (mbr2 y x) := by
        simp only [List.foldl_cons]
        rw [mbr2_comm x y]
      rcases List.mem_cons.mp hx with rfl | hm
      · rw [e1, e2, e3, mbr2_self]
      · rw [e1, e2, e3, foldl_mbr2_absorb ys y x hm]

theorem sumSi_perm {l l' : List Box} (h : l.Perm l') : sumSi l = sumSi l' := by
  induction h with
  | nil => rfl
  | cons x h ih =>
    simp only [sumSi]
    rw [ih, (h.map fun c => interArea x c).sum_eq]
  | swap x y l =>
    simp only [sumSi, List.map_cons, List.sum_cons]
    rw [interArea_comm y x]
    ring
  | trans _ _ ih1 ih2 => rw [ih1, ih2]

theorem mean_perm {l l' : List ℚ} (h : l.Perm l') : mean l = mean l' := by
  unfold mean
  rw [h.sum_eq, h.length_eq]

theorem tileScore_perm {l l' : List Box} (h : l.Perm l') :
    tileScore l = tileScore l' := by
  unfold tileScore
  rw [sumSi_perm h, mbrList_perm h, (h.map area).sum_eq]

/-- Claim C7: `tile_iou_loss` is invariant under applying one and the same
permutation to the prediction sequence and to the target sequence (stated
as: the two aligned pair sequences are rearrangements of each other). -/
theorem tile_iou_loss_perm_invariant (P : Substrate) (iz : Bool)
    (out tgt out' tgt' : List Box)
    (h : (out.zip tgt).Perm (out'.zip tgt')) :
    tile_iou_loss P out tgt iz = tile_iou_loss P out' tgt' iz := by
  have hsel : (selPairs out tgt iz).Perm (selPairs out' tgt' iz) := by
    cases iz
    · exact h
    · exact h.filter fun p => keep p.2
  simp only [tile_iou_loss]
  rw [mean_perm (hsel.map fun p => ciouTerm P p.2 p.1),
    mbrList_perm (hsel.map Prod.fst), mbrList_perm (hsel.map Prod.snd),
    tileScore_perm (hsel.map Prod.fst), tileScore_perm (hsel.map Prod.snd)]

/-- Claim C7, witness: swapping the two positions of both sequences at once
leaves the loss unchanged. -/
theorem tile_iou_loss_perm_invariant_witness :
    tile_iou_loss testP [⟨0, 0, 1, 1⟩, ⟨1, 0, 2, 1⟩] [⟨0, 0, 1, 2⟩, ⟨1, 1, 2, 2⟩] true
      = tile_iou_loss testP [⟨1, 0, 2, 1⟩, ⟨0, 0, 1, 1⟩] [⟨1, 1, 2, 2⟩, ⟨0, 0, 1, 2⟩] true :=
  tile_iou_loss_perm_invariant testP true _ _ _ _ (by decide)

end TexLosses
